import Mathlib

/-!
# Verification of the AirBnB data-processing pipeline

A shallow embedding of the filter/aggregate engine (`AirBnBDataHandler.js`)
and the interactive shell's criteria construction (`ui.js`), together with
theorems settling the specification claims.

JavaScript numbers are modelled as `JsNum` (an exact rational, or `nan`);
the infinite values never arise from the inputs considered here and are not
modelled.  JavaScript strings are Lean `String`s; a possibly-missing object
property is an `Option`.
-/

namespace AirBnB

/-- A JavaScript number: either NaN or a finite value (modelled exactly as a
rational; IEEE-754 rounding is abstracted away). -/
inductive JsNum where
  | nan : JsNum
  | num : ℚ → JsNum
deriving DecidableEq, Repr

/-- JavaScript `<=` on numbers: any comparison with NaN is false. -/
def jsLe : JsNum → JsNum → Bool
  | JsNum.num a, JsNum.num b => a ≤ b
  | _, _ => false

/-- JavaScript `>=` on numbers: any comparison with NaN is false. -/
def jsGe : JsNum → JsNum → Bool
  | JsNum.num a, JsNum.num b => b ≤ a
  | _, _ => false

/-- JavaScript `===` on numbers: NaN is equal to nothing, including itself. -/
def jsStrictEq : JsNum → JsNum → Bool
  | JsNum.num a, JsNum.num b => a = b
  | _, _ => false

/-- JavaScript `+` on numbers: NaN propagates. -/
def jsAdd : JsNum → JsNum → JsNum
  | JsNum.num a, JsNum.num b => JsNum.num (a + b)
  | _, _ => JsNum.nan

/-- Division of a JavaScript number by a positive natural count
(the only division the source performs); NaN propagates. -/
def jsDivNat : JsNum → Nat → JsNum
  | JsNum.num a, n => JsNum.num (a / (n : ℚ))
  | JsNum.nan, _ => JsNum.nan

/-- The whitespace characters skipped by JavaScript number parsing and
stripped by `String.prototype.trim` (ASCII subset; the exotic Unicode
spaces never occur in the data considered here). -/
def jsWhitespace (c : Char) : Bool :=
  c = ' ' || c = '\t' || c = '\n' || c = '\r' || c = '\x0b' || c = '\x0c'

/-- JavaScript `String.prototype.trim` (on the ASCII whitespace set). -/
def jsTrim (s : String) : String :=
  String.mk (((s.toList.dropWhile jsWhitespace).reverse.dropWhile jsWhitespace).reverse)

/-- Numeric value of a list of decimal digit characters. -/
def digitsVal (l : List Char) : ℕ :=
  l.foldl (fun n c => 10 * n + (c.toNat - '0'.toNat)) 0

/-- Value of a list of hexadecimal digit characters. -/
def hexVal (l : List Char) : ℕ :=
  l.foldl (fun n c =>
    16 * n +
      (if c.isDigit then c.toNat - '0'.toNat
       else if 'a' ≤ c ∧ c ≤ 'f' then c.toNat - 'a'.toNat + 10
       else c.toNat - 'A'.toNat + 10)) 0

def isHexDigit (c : Char) : Bool :=
  c.isDigit || ('a' ≤ c && c ≤ 'f') || ('A' ≤ c && c ≤ 'F')

/-- Parse the longest valid decimal-literal prefix of `l` (after sign
handling), as JavaScript `parseFloat` does: digits, an optional fraction,
and an optional exponent (the exponent only counts when at least one
exponent digit follows).  `none` when no digits occur before the exponent
part. -/
def parseFloatAux (l : List Char) : Option ℚ :=
  let intD := l.takeWhile Char.isDigit
  let r1 := l.dropWhile Char.isDigit
  let fracD :=
    match r1 with
    | '.' :: rest => rest.takeWhile Char.isDigit
    | _ => []
  let r2 :=
    match r1 with
    | '.' :: rest => rest.dropWhile Char.isDigit
    | _ => r1
  if intD = [] ∧ fracD = [] then none
  else
    let mantissa : ℚ := (digitsVal intD : ℚ) + (digitsVal fracD : ℚ) / (10 : ℚ) ^ fracD.length
    let expPart : ℚ :=
      match r2 with
      | 'e' :: rest => expVal rest
      | 'E' :: rest => expVal rest
      | _ => 1
    some (mantissa * expPart)
where
  /-- Value `10^e` contributed by the optional exponent tail; `1` when the
  exponent is malformed (JavaScript then stops before the `e`). -/
  expVal (rest : List Char) : ℚ :=
    match rest with
    | '-' :: ds => if ds.takeWhile Char.isDigit = [] then 1 else ((10 : ℚ) ^ digitsVal (ds.takeWhile Char.isDigit))⁻¹
    | '+' :: ds => if ds.takeWhile Char.isDigit = [] then 1 else (10 : ℚ) ^ digitsVal (ds.takeWhile Char.isDigit)
    | ds => if ds.takeWhile Char.isDigit = [] then 1 else (10 : ℚ) ^ digitsVal (ds.takeWhile Char.isDigit)

/-- JavaScript `parseFloat`: skip leading whitespace, optional sign, then
the longest valid decimal-literal prefix; NaN when none exists.
(`Infinity` literals are not modelled; they never arise below.) -/
def jsParseFloat (s : String) : JsNum :=
  let l := s.toList.dropWhile jsWhitespace
  match l with
  | '-' :: rest =>
      match parseFloatAux rest with
      | none => JsNum.nan
      | some q => JsNum.num (-q)
  | '+' :: rest =>
      match parseFloatAux rest with
      | none => JsNum.nan
      | some q => JsNum.num q
  | _ =>
      match parseFloatAux l with
      | none => JsNum.nan
      | some q => JsNum.num q

/-- JavaScript `parseInt` with no radix argument, as an optional integer
(`none` is NaN): skip whitespace, optional sign, then either a `0x`/`0X`
hexadecimal literal or the longest decimal-digit prefix. -/
def jsParseIntZ (s : String) : Option ℤ :=
  let l := s.toList.dropWhile jsWhitespace
  let sign : ℤ := match l with | '-' :: _ => -1 | _ => 1
  let l2 := match l with | '-' :: r => r | '+' :: r => r | _ => l
  match l2 with
  | '0' :: 'x' :: r =>
      if r.takeWhile isHexDigit = [] then none
      else some (sign * (hexVal (r.takeWhile isHexDigit) : ℤ))
  | '0' :: 'X' :: r =>
      if r.takeWhile isHexDigit = [] then none
      else some (sign * (hexVal (r.takeWhile isHexDigit) : ℤ))
  | _ =>
      if l2.takeWhile Char.isDigit = [] then none
      else some (sign * (digitsVal (l2.takeWhile Char.isDigit) : ℤ))

/-- `parseInt` as a JavaScript number. -/
def jsParseInt (s : String) : JsNum :=
  match jsParseIntZ s with
  | none => JsNum.nan
  | some z => JsNum.num (z : ℚ)

/-- Passing a possibly-missing string property to a function that coerces
its argument to a string: `undefined` becomes the string "undefined"
(which every numeric parse maps to NaN). -/
def jsArg (o : Option String) : String :=
  o.getD "undefined"

/-- `extractPrice` from `AirBnBDataHandler.js`:
`parseFloat(priceStr.replace(/[^0-9.]/g, ''))` — strip every character
other than a decimal digit or `.`, then parse as a float. -/
def extractPrice (priceStr : String) : JsNum :=
  jsParseFloat (String.mk (priceStr.toList.filter (fun c => c.isDigit || c = '.')))

/-- One listing record as produced by the CSV loader: a mapping from the
column names the engine references to string values; `none` models a
property absent from the record object. -/
structure Record where
  price : Option String := none
  room_type : Option String := none
  bedrooms : Option String := none
  review_scores_rating : Option String := none
  host_id : Option String := none
  host_location : Option String := none
deriving DecidableEq, Repr

/-- The criteria object accepted by `filter`; `none` models an
absent/`undefined` key.  Note a present numeric key may hold NaN. -/
structure Criteria where
  price : Option JsNum := none
  room_type : Option String := none
  bedrooms : Option JsNum := none
  review_scores_rating : Option JsNum := none
deriving DecidableEq, Repr

/-- The price pass of `filter`:
`filteredData.filter((listing) => extractPrice(listing.price) <= criteria.price)`.
When some listing lacks a `price` property, `extractPrice` calls
`.replace` on `undefined` and the whole call throws (`none` here). -/
def pricePass (p : JsNum) (l : List Record) : Option (List Record) :=
  if l.all (fun r => r.price.isSome) then
    some (l.filter (fun r => jsLe (extractPrice (r.price.getD "")) p))
  else none

/-- The `room_type` pass of `filter`, guarded by truthiness
(`if (criteria.room_type)`): an absent key or the empty string applies no
constraint; otherwise keep exact (`===`) matches. -/
def roomPass (o : Option String) (l : List Record) : List Record :=
  match o with
  | some rt => if rt = "" then l else l.filter (fun r => r.room_type = some rt)
  | none => l

/-- The `bedrooms` pass of `filter`, guarded by `!== undefined`:
`parseInt(listing.bedrooms) === criteria.bedrooms`. -/
def bedPass (o : Option JsNum) (l : List Record) : List Record :=
  match o with
  | some b => l.filter (fun r => jsStrictEq (jsParseInt (jsArg r.bedrooms)) b)
  | none => l

/-- The `review_scores_rating` pass of `filter`, guarded by
`!== undefined`: `parseFloat(listing.review_scores_rating) >= criteria.review_scores_rating`. -/
def ratingPass (o : Option JsNum) (l : List Record) : List Record :=
  match o with
  | some q => l.filter (fun r => jsGe (jsParseFloat (jsArg r.review_scores_rating)) q)
  | none => l

/-- `filter(criteria)` from `AirBnBDataHandler.js`: the four passes in
source order (price, room_type, bedrooms, review_scores_rating), each a
full pass narrowing the sequence further.  The result is `none` exactly
when the price pass throws. -/
def filter (c : Criteria) (l : List Record) : Option (List Record) :=
  (match c.price with
   | none => some l
   | some p => pricePass p l).map (fun (l1 : List Record) =>
    ratingPass c.review_scores_rating (bedPass c.bedrooms (roomPass c.room_type l1)))

/-! ## JavaScript object key enumeration

A plain object enumerates its own string keys (for `Object.entries`,
`Object.keys` and `JSON.stringify`) with array-index keys first in
ascending numeric order, then the remaining string keys in insertion
order.  Objects are modelled as insertion-ordered association lists and
the enumeration reordering is applied where the source enumerates. -/

/-- Is `s` an array-index property key: the canonical decimal form (no
leading zero except `"0"` itself) of an integer below `2^32 - 1`?  (Then
the object stores it as an index and enumerates it numerically.) -/
def isArrayIndex (s : String) : Bool :=
  match s.toList with
  | [] => false
  | ['0'] => true
  | '0' :: _ :: _ => false
  | l => l.all Char.isDigit && decide (digitsVal l < 2 ^ 32 - 1)

/-- Numeric value used to order array-index keys (their digits' value). -/
def idxVal {α : Type} (p : String × α) : Nat :=
  digitsVal p.1.toList

/-- Enumeration order of the own keys of a JavaScript object whose
insertion order is `l`: array-index keys ascending, then the rest in
insertion order. -/
def jsEntriesOrder {α : Type} (l : List (String × α)) : List (String × α) :=
  List.insertionSort (fun a b => idxVal a ≤ idxVal b) (l.filter (fun p => isArrayIndex p.1))
    ++ l.filter (fun p => !isArrayIndex p.1)

/-- Association-list lookup (first match wins, as property access does). -/
def lookupA {α : Type} (k : String) : List (String × α) → Option α
  | [] => none
  | (k', v) :: rest => if k' = k then some v else lookupA k rest

/-! ## computeStats -/

/-- A per-bedroom accumulator cell `{ sum, count }`. -/
structure Bucket where
  sum : JsNum
  count : Nat
deriving DecidableEq, Repr

/-- Is this record skipped by the stats accumulation:
`!curr.price || curr.price.trim() === ''`. -/
def blankPrice (r : Record) : Bool :=
  match r.price with
  | none => true
  | some s => s = "" || jsTrim s = ""

/-- Decimal digits of `n` (fuel-based so that it reduces in the kernel). -/
def natDigitsAux : Nat → Nat → List Char
  | 0, _ => []
  | fuel + 1, n =>
      if n < 10 then [Char.ofNat (48 + n)]
      else natDigitsAux fuel (n / 10) ++ [Char.ofNat (48 + n % 10)]

/-- The decimal string of a natural number. -/
def natToStr (n : Nat) : String :=
  String.mk (natDigitsAux (n + 1) n)

/-- The decimal string of an integer (JavaScript `String(int)`). -/
def intToStr : ℤ → String
  | Int.ofNat n => natToStr n
  | Int.negSucc n => "-" ++ natToStr (n + 1)

/-- The property key `acc[bedCount]` is stored under: the decimal string
of `parseInt(curr.bedrooms)`, or `"NaN"`. -/
def bedKey (r : Record) : String :=
  match jsParseIntZ (jsArg r.bedrooms) with
  | none => "NaN"
  | some z => intToStr z

/-- `acc[k] = {sum: 0, count: 0}` if absent, then `sum += p; count += 1`,
preserving the association list's key order. -/
def updateBucket : List (String × Bucket) → String → JsNum → List (String × Bucket)
  | [], k, p => [(k, ⟨jsAdd (JsNum.num 0) p, 1⟩)]
  | (k', b) :: rest, k, p =>
      if k' = k then (k', ⟨jsAdd b.sum p, b.count + 1⟩) :: rest
      else (k', b) :: updateBucket rest k p

/-- One step of the `reduce` inside `computeStats`. -/
def statsStep (acc : List (String × Bucket)) (r : Record) : List (String × Bucket) :=
  if blankPrice r then acc
  else updateBucket acc (bedKey r) (extractPrice (r.price.getD ""))

/-- The `reduce` inside `computeStats`: accumulate `{sum, count}` per
bedroom key, skipping blank-price records. -/
def statsFold (l : List Record) : List (String × Bucket) :=
  l.foldl statsStep []

/-- `count > 0 ? sum / count : 0`. -/
def bucketAvg (b : Bucket) : JsNum :=
  if b.count > 0 then jsDivNat b.sum b.count else JsNum.num 0

/-- The result shape of `computeStats`. -/
structure Stats where
  count : Nat
  avgPricePerBedroom : List (String × JsNum)
deriving DecidableEq, Repr

/-- `computeStats()` from `AirBnBDataHandler.js`: the record count of the
current table and the per-bedroom averages (keys enumerated in object
order). -/
def computeStats (l : List Record) : Stats :=
  { count := l.length
    avgPricePerBedroom :=
      (jsEntriesOrder (statsFold l)).map (fun kb => (kb.1, bucketAvg kb.2)) }

/-! ## computeListingsPerHost -/

/-- The property key a record is grouped under: `acc[curr.host_id]`
(a missing `host_id` becomes the key `"undefined"`). -/
def hostKey (r : Record) : String :=
  jsArg r.host_id

/-- `acc[k] = (acc[k] || 0) + 1`, preserving key order. -/
def bumpHost : List (String × Nat) → String → List (String × Nat)
  | [], k => [(k, 1)]
  | (k', n) :: rest, k =>
      if k' = k then (k', n + 1) :: rest
      else (k', n) :: bumpHost rest k

/-- The `reduce` inside `computeListingsPerHost`. -/
def hostFold (l : List Record) : List (String × Nat) :=
  l.foldl (fun acc r => bumpHost acc (hostKey r)) []

/-- The comparator `(a, b) => b[1] - a[1]` keeps `a` before `b` exactly
when `b[1] ≤ a[1]`; `Array.prototype.sort` is stable. -/
def countGe (a b : String × Nat) : Prop :=
  b.2 ≤ a.2

instance : DecidableRel countGe := fun a b => Nat.decLe b.2 a.2

instance : IsTotal (String × Nat) countGe :=
  ⟨fun a b => Nat.le_total b.2 a.2⟩

instance : IsTrans (String × Nat) countGe :=
  ⟨fun _ _ _ h1 h2 => Nat.le_trans h2 h1⟩

/-- `computeListingsPerHost()` from `AirBnBDataHandler.js`:
`Object.entries(hostListings).sort((a, b) => b[1] - a[1])`.  A stable
sort with a consistent comparator is unique, so the engine's stable sort
is modelled by insertion sort. -/
def computeListingsPerHost (l : List Record) : List (String × Nat) :=
  List.insertionSort countGe (jsEntriesOrder (hostFold l))

/-! ## filterByHostLocation -/

/-- `sub.isPrefixOf`-based model of `String.prototype.includes`:
does `s` contain `sub` as a (case-sensitive) substring? -/
def strIncludes (s sub : String) : Bool :=
  s.toList.tails.any (fun t => sub.toList.isPrefixOf t)

/-- `filterByHostLocation(hostLocation)` from `AirBnBDataHandler.js`:
`this.data.filter((listing) => listing.host_location.includes(hostLocation))`.
When some listing lacks `host_location`, `.includes` is called on
`undefined` and the whole call throws (`none` here). -/
def filterByHostLocation (hostLocation : String) (l : List Record) : Option (List Record) :=
  if l.all (fun r => r.host_location.isSome) then
    some (l.filter (fun r => strIncludes (r.host_location.getD "") hostLocation))
  else none

/-! ## The Shell's criteria construction (`ui.js`, option 1) -/

/-- The `filterParams` object built by `startUI` from the four prompt
answers: a blank (falsy) answer yields `undefined`, any other answer is
parsed (`parseFloat`/`parseInt`), which yields NaN on malformed input. -/
def buildFilterParams (price roomType bedrooms rating : String) : Criteria :=
  { price := if price = "" then none else some (jsParseFloat price)
    room_type := if roomType = "" then none else some roomType
    bedrooms := if bedrooms = "" then none else some (jsParseInt bedrooms)
    review_scores_rating := if rating = "" then none else some (jsParseFloat rating) }

/-! ## exportResults and the JSON round trip

`exportResults` writes `JSON.stringify({filteredListings, calculations},
null, 2)`.  An in-memory value handed to `JSON.stringify` is a `JVal`
(strings, numbers possibly NaN, arrays, ordered objects); the written
document's information content is a `Json` tree (same shape, but a JSON
text has no NaN: `JSON.stringify` emits `null` for a NaN number and is
otherwise lossless on these values, and `JSON.parse` reads the tree
back).  Reading the export back therefore yields `readV (serializeV v)`
for the exported `v`. -/

/-- An in-memory JavaScript value of the shapes `exportResults` serializes. -/
inductive JVal where
  | null : JVal
  | str : String → JVal
  | num : JsNum → JVal
  | arr : List JVal → JVal
  | obj : List (String × JVal) → JVal

/-- A parsed JSON document (no NaN exists at this level). -/
inductive Json where
  | null : Json
  | str : String → Json
  | num : ℚ → Json
  | arr : List Json → Json
  | obj : List (String × Json) → Json

mutual

/-- The JSON document `JSON.stringify` produces for a value: NaN (whose
literal form does not exist in JSON) becomes `null`; everything else is
carried over exactly. -/
def serializeV : JVal → Json
  | JVal.null => Json.null
  | JVal.str s => Json.str s
  | JVal.num JsNum.nan => Json.null
  | JVal.num (JsNum.num q) => Json.num q
  | JVal.arr l => Json.arr (serializeL l)
  | JVal.obj l => Json.obj (serializeO l)

def serializeL : List JVal → List Json
  | [] => []
  | v :: vs => serializeV v :: serializeL vs

def serializeO : List (String × JVal) → List (String × Json)
  | [] => []
  | (k, v) :: vs => (k, serializeV v) :: serializeO vs

end

mutual

/-- The in-memory value `JSON.parse` produces from a document. -/
def readV : Json → JVal
  | Json.null => JVal.null
  | Json.str s => JVal.str s
  | Json.num q => JVal.num (JsNum.num q)
  | Json.arr l => JVal.arr (readL l)
  | Json.obj l => JVal.obj (readO l)

def readL : List Json → List JVal
  | [] => []
  | v :: vs => readV v :: readL vs

def readO : List (String × Json) → List (String × JVal)
  | [] => []
  | (k, v) :: vs => (k, readV v) :: readO vs

end

/-- Writing the export with `exportResults` and parsing the document back. -/
def jsonRoundTrip (v : JVal) : JVal :=
  readV (serializeV v)

/-- A field contributes a key/value pair to the record's JSON object only
when present. -/
def optField (k : String) : Option String → List (String × JVal)
  | none => []
  | some s => [(k, JVal.str s)]

/-- A record as serialized inside `filteredListings`. -/
def recordToJVal (r : Record) : JVal :=
  JVal.obj (optField "price" r.price ++ optField "room_type" r.room_type ++
    optField "bedrooms" r.bedrooms ++
    optField "review_scores_rating" r.review_scores_rating ++
    optField "host_id" r.host_id ++ optField "host_location" r.host_location)

/-- A `computeStats` result as serialized. -/
def statsToJVal (s : Stats) : JVal :=
  JVal.obj [("count", JVal.num (JsNum.num (s.count : ℚ))),
    ("avgPricePerBedroom",
      JVal.obj (s.avgPricePerBedroom.map (fun p => (p.1, JVal.num p.2))))]

/-- A `computeListingsPerHost` result as serialized. -/
def rankingsToJVal (l : List (String × Nat)) : JVal :=
  JVal.arr (l.map (fun p => JVal.arr [JVal.str p.1, JVal.num (JsNum.num (p.2 : ℚ))]))

/-- The `[location, count]` pair stored by menu option 4. -/
def locToJVal (p : String × Nat) : JVal :=
  JVal.arr [JVal.str p.1, JVal.num (JsNum.num (p.2 : ℚ))]

/-- The `calculations` object the Shell accumulates: session results from
`computeStats`, `computeListingsPerHost` and the host-location count. -/
structure Calculations where
  stats : Option Stats := none
  rankings : Option (List (String × Nat)) := none
  locationCount : Option (String × Nat) := none
deriving DecidableEq, Repr

def calcsToJVal (c : Calculations) : JVal :=
  JVal.obj ((match c.stats with
             | some s => [("stats", statsToJVal s)]
             | none => []) ++
            (match c.rankings with
             | some l => [("rankings", rankingsToJVal l)]
             | none => []) ++
            (match c.locationCount with
             | some p => [("locationCount", locToJVal p)]
             | none => []))

/-- The object `exportResults` serializes:
`{ filteredListings: this.data, calculations }`. -/
def exportContent (data : List Record) (c : Calculations) : JVal :=
  JVal.obj [("filteredListings", JVal.arr (data.map recordToJVal)),
    ("calculations", calcsToJVal c)]

mutual

/-- Does a NaN number occur anywhere in the value? -/
def hasNanV : JVal → Bool
  | JVal.null => false
  | JVal.str _ => false
  | JVal.num JsNum.nan => true
  | JVal.num (JsNum.num _) => false
  | JVal.arr l => hasNanL l
  | JVal.obj l => hasNanO l

def hasNanL : List JVal → Bool
  | [] => false
  | v :: vs => hasNanV v || hasNanL vs

def hasNanO : List (String × JVal) → Bool
  | [] => false
  | (_, v) :: vs => hasNanV v || hasNanO vs

end

/-! ## Concrete records used as test inputs -/

/-- A record whose only present field is `room_type: "X"`. -/
def roomX : Record := { room_type := some "X" }

/-- A record priced `"$50.00"`. -/
def p50 : Record := { price := some "$50.00" }

/-- A record priced `"$140.00"` with one bedroom. -/
def p140 : Record := { price := some "$140.00", bedrooms := some "1" }

/-- A record whose price string `"N/A"` contains no digit. -/
def pNA : Record := { price := some "N/A", bedrooms := some "1" }

/-! ## Basic pass lemmas -/

theorem jsLe_nan_right (x : JsNum) : jsLe x JsNum.nan = false := by
  cases x <;> rfl

theorem jsGe_nan_right (x : JsNum) : jsGe x JsNum.nan = false := by
  cases x <;> rfl

theorem jsStrictEq_nan_right (x : JsNum) : jsStrictEq x JsNum.nan = false := by
  cases x <;> rfl

theorem roomPass_none (l : List Record) : roomPass none l = l := rfl

theorem bedPass_none (l : List Record) : bedPass none l = l := rfl

theorem ratingPass_none (l : List Record) : ratingPass none l = l := rfl

/-- Reduction of `filter` when the price criterion is absent. -/
theorem filter_no_price (c : Criteria) (hc : c.price = none) (l : List Record) :
    filter c l =
      some (ratingPass c.review_scores_rating (bedPass c.bedrooms (roomPass c.room_type l))) := by
  unfold filter
  rw [hc]
  rfl

/-- Reduction of `filter` when the price criterion is present. -/
theorem filter_with_price (c : Criteria) (p : JsNum) (hc : c.price = some p)
    (l : List Record) :
    filter c l =
      (pricePass p l).map (fun l1 =>
        ratingPass c.review_scores_rating (bedPass c.bedrooms (roomPass c.room_type l1))) := by
  unfold filter
  rw [hc]

theorem roomPass_sublist (o : Option String) (l : List Record) :
    List.Sublist (roomPass o l) l := by
  cases o with
  | none => exact List.Sublist.refl l
  | some rt =>
      simp only [roomPass]
      split
      · exact List.Sublist.refl l
      · exact List.filter_sublist l

theorem bedPass_sublist (o : Option JsNum) (l : List Record) :
    List.Sublist (bedPass o l) l := by
  cases o with
  | none => exact List.Sublist.refl l
  | some b => exact List.filter_sublist l

theorem ratingPass_sublist (o : Option JsNum) (l : List Record) :
    List.Sublist (ratingPass o l) l := by
  cases o with
  | none => exact List.Sublist.refl l
  | some q => exact List.filter_sublist l

/-- A NaN `bedrooms` criterion excludes every record (`=== NaN` is false). -/
theorem bedPass_nan (l : List Record) : bedPass (some JsNum.nan) l = [] := by
  simp only [bedPass]
  rw [List.filter_eq_nil_iff]
  intro r _
  simp [jsStrictEq_nan_right]

/-- A NaN rating criterion excludes every record (`>= NaN` is false). -/
theorem ratingPass_nan (l : List Record) : ratingPass (some JsNum.nan) l = [] := by
  simp only [ratingPass]
  rw [List.filter_eq_nil_iff]
  intro r _
  simp [jsGe_nan_right]

/-! ## Claim theorems: the filter passes -/

/-- C6: filtering with a combined criteria object yields the same record
sequence as filtering with each constraint in turn (price, then
room_type, then bedrooms, then rating): criteria compose as a logical AND
of independent predicates applied in sequence. -/
theorem filter_and_decomposes (c : Criteria) (d : List Record) :
    filter c d =
      (filter { price := c.price } d).bind (fun d1 =>
        (filter { room_type := c.room_type } d1).bind (fun d2 =>
          (filter { bedrooms := c.bedrooms } d2).bind (fun d3 =>
            filter { review_scores_rating := c.review_scores_rating } d3))) := by
  obtain ⟨p, rt, b, ra⟩ := c
  cases p with
  | none => rfl
  | some pv =>
      cases hp : pricePass pv d <;>
        simp [filter, hp, roomPass_none, bedPass_none, ratingPass_none]

/-- C7: `filter` returns a handler whose record sequence is a subsequence
of the original in the original relative order; the embedding is pure, so
the original sequence is untouched by construction. -/
theorem filter_returns_sublist (c : Criteria) (d out : List Record)
    (h : filter c d = some out) : List.Sublist out d := by
  have key : ∀ l1 : List Record,
      List.Sublist
        (ratingPass c.review_scores_rating (bedPass c.bedrooms (roomPass c.room_type l1))) l1 :=
    fun l1 =>
      ((ratingPass_sublist _ _).trans (bedPass_sublist _ _)).trans (roomPass_sublist _ l1)
  cases hc : c.price with
  | none =>
      rw [filter_no_price c hc] at h
      injection h with h
      exact h ▸ key d
  | some pv =>
      rw [filter_with_price c pv hc] at h
      cases hp : pricePass pv d with
      | none => rw [hp] at h; simp at h
      | some d1 =>
          rw [hp] at h
          injection h with h
          have hsub : List.Sublist d1 d := by
            unfold pricePass at hp
            by_cases hall : List.all d (fun r => r.price.isSome) = true
            · rw [if_pos hall] at hp
              injection hp with hp
              exact hp ▸ List.filter_sublist d
            · rw [if_neg hall] at hp
              cases hp
          exact h ▸ (key d1).trans hsub

/-- Witness for C7 at a concrete input. -/
theorem filter_returns_sublist_witness :
    filter {} [p50] = some [p50] ∧ List.Sublist [p50] [p50] :=
  ⟨rfl, filter_returns_sublist {} [p50] [p50] rfl⟩

/-- C4 as stated is false: with `room_type` present and equal to the
empty string, `if (criteria.room_type)` is falsy, so no constraint is
applied; the record with `room_type: "X"` survives even though it does
not equal `""`. -/
theorem room_type_empty_counterexample :
    filter { room_type := some "" } [roomX] = some [roomX] ∧
      roomX.room_type ≠ some "" := by
  refine ⟨rfl, by decide⟩

/-- C4 amended: the `room_type` constraint (exact, case-sensitive string
equality) is applied exactly when the key holds a truthy — that is,
non-empty — string; the empty string, like an absent key, imposes no
constraint. -/
theorem room_type_truthy_guard (d : List Record) (rt : String) (h : rt ≠ "") :
    filter { room_type := some rt } d =
        some (d.filter (fun r => r.room_type = some rt)) ∧
      filter { room_type := some "" } d = some d := by
  constructor
  · have hr : roomPass (some rt) d = d.filter (fun r => r.room_type = some rt) := by
      simp only [roomPass]
      rw [if_neg h]
    rw [filter_no_price _ rfl, hr]
    rfl
  · rfl

/-- Witness for C4's amended theorem at a concrete input. -/
theorem room_type_truthy_guard_witness :
    ("Y" : String) ≠ "" ∧
      filter { room_type := some "Y" } [roomX] =
        some ([roomX].filter (fun r => r.room_type = some "Y")) :=
  ⟨by decide, (room_type_truthy_guard [roomX] "Y" (by decide)).1⟩

/-- Spec-side predicate for the price criterion: the record's price
string, stripped to digits and `.`, parses to a finite number that is at
most the bound; a record whose price does not parse to a finite number
fails. -/
def priceWithinSpec (q : ℚ) (r : Record) : Bool :=
  match r.price with
  | none => false
  | some s =>
      match extractPrice s with
      | JsNum.num p => p ≤ q
      | JsNum.nan => false

/-- C5: with a numeric price criterion, `filter` keeps exactly the
records whose price string (stripped to digits and `.`) parses to a
finite number `≤` the criterion; unparsable prices are excluded. -/
theorem price_filter_keeps_exactly (q : ℚ) (d : List Record)
    (h : ∀ r ∈ d, r.price.isSome) :
    filter { price := some (JsNum.num q) } d =
      some (d.filter (priceWithinSpec q)) := by
  have hall : List.all d (fun r => r.price.isSome) = true := by
    rw [List.all_eq_true]; exact h
  rw [filter_with_price _ (JsNum.num q) rfl]
  unfold pricePass
  rw [if_pos hall]
  have heq : d.filter (fun r => jsLe (extractPrice (r.price.getD "")) (JsNum.num q)) =
      d.filter (priceWithinSpec q) := by
    apply List.filter_congr
    intro r hr
    rcases hmem : r.price with _ | s
    · exact absurd (h r hr) (by simp [hmem])
    · simp only [hmem, Option.getD_some, priceWithinSpec]
      cases extractPrice s <;> simp [jsLe]
  rw [heq]
  rfl

/-- Witness for C5 at a concrete input. -/
theorem price_filter_keeps_exactly_witness :
    (∀ r ∈ [p140, pNA], r.price.isSome) ∧
      filter { price := some (JsNum.num 150) } [p140, pNA] =
        some ([p140, pNA].filter (priceWithinSpec 150)) :=
  ⟨by decide, price_filter_keeps_exactly 150 [p140, pNA] (by decide)⟩

/-- C1 as stated is false: the prompt answer `"abc"` is non-blank, so the
Shell stores `parseFloat("abc")`, which is NaN, not `undefined`; the
price pass is applied and `extractPrice(...) <= NaN` is always false, so
the table is emptied instead of left unnarrowed. -/
theorem nan_price_criterion_counterexample :
    filter (buildFilterParams "abc" "" "" "") [p50] = some [] ∧
      some ([] : List Record) ≠ some [p50] := by
  refine ⟨by decide, by decide⟩

/-- C1 amended: a non-blank prompt answer that parses to NaN yields a
present NaN criterion, which is applied and excludes every record — the
price/bedrooms/rating criterion built from such an answer empties the
table (rather than leaving it unnarrowed). -/
theorem nan_criterion_excludes_all (d : List Record) :
    (∀ s, s ≠ "" → jsParseFloat s = JsNum.nan → (∀ r ∈ d, r.price.isSome) →
       filter (buildFilterParams s "" "" "") d = some []) ∧
    (∀ s, s ≠ "" → jsParseInt s = JsNum.nan →
       filter (buildFilterParams "" "" s "") d = some []) ∧
    (∀ s, s ≠ "" → jsParseFloat s = JsNum.nan →
       filter (buildFilterParams "" "" "" s) d = some []) := by
  refine ⟨fun s hs hnan hall => ?_, fun s hs hnan => ?_, fun s hs hnan => ?_⟩
  · have hb : buildFilterParams s "" "" "" = { price := some JsNum.nan } := by
      simp [buildFilterParams, hs, hnan]
    have hall' : List.all d (fun r => r.price.isSome) = true := by
      rw [List.all_eq_true]; exact hall
    rw [hb, filter_with_price _ JsNum.nan rfl]
    unfold pricePass
    rw [if_pos hall']
    have hnil : d.filter (fun r => jsLe (extractPrice (r.price.getD "")) JsNum.nan) = [] := by
      rw [List.filter_eq_nil_iff]
      intro r _
      simp [jsLe_nan_right]
    rw [hnil]
    rfl
  · have hb : buildFilterParams "" "" s "" = { bedrooms := some JsNum.nan } := by
      simp [buildFilterParams, hs, hnan]
    rw [hb, filter_no_price _ rfl, roomPass_none, bedPass_nan, ratingPass_none]
  · have hb : buildFilterParams "" "" "" s = { review_scores_rating := some JsNum.nan } := by
      simp [buildFilterParams, hs, hnan]
    rw [hb, filter_no_price _ rfl, roomPass_none, bedPass_none, ratingPass_nan]

/-- Witness for C1's amended theorem at a concrete input. -/
theorem nan_criterion_excludes_all_witness :
    (("abc" : String) ≠ "" ∧ jsParseFloat "abc" = JsNum.nan ∧
        (∀ r ∈ [p50], r.price.isSome)) ∧
      filter (buildFilterParams "abc" "" "" "") [p50] = some [] :=
  ⟨⟨by decide, by decide, by decide⟩,
    (nan_criterion_excludes_all [p50]).1 "abc" (by decide) (by decide) (by decide)⟩

/-! ## Claim theorems: computeStats -/

/-- The stats accumulation ignores blank-price records: folding over a
list equals folding over the list with those records removed. -/
theorem statsFold_filter_blank (l : List Record) (acc : List (String × Bucket)) :
    l.foldl statsStep acc = (l.filter (fun r => !blankPrice r)).foldl statsStep acc := by
  induction l generalizing acc with
  | nil => rfl
  | cons r t ih =>
      rw [List.foldl_cons]
      by_cases hb : blankPrice r = true
      · have h1 : statsStep acc r = acc := by simp [statsStep, hb]
        have h2 : (r :: t).filter (fun x => !blankPrice x) =
            t.filter (fun x => !blankPrice x) := by
          simp [List.filter_cons, hb]
        rw [h1, h2, ih]
      · have hb' : blankPrice r = false := by simpa using hb
        have h2 : (r :: t).filter (fun x => !blankPrice x) =
            r :: t.filter (fun x => !blankPrice x) := by
          simp [List.filter_cons, hb']
        rw [h2, List.foldl_cons, ih]

/-- C8: `computeStats` reports `count` as the size of the table as-is,
while records whose price string is missing, empty or whitespace-only
contribute to no per-bedroom bucket at all — the per-bedroom averages
over the table equal those over the table with such records removed. -/
theorem stats_count_and_blank_exclusion (d : List Record) :
    (computeStats d).count = d.length ∧
    (computeStats d).avgPricePerBedroom =
      (computeStats (d.filter (fun r => !blankPrice r))).avgPricePerBedroom := by
  refine ⟨rfl, ?_⟩
  have hfold : statsFold d = statsFold (d.filter (fun r => !blankPrice r)) :=
    statsFold_filter_blank d []
  simp [computeStats, hfold]

/-! ## Claim theorems: filterByHostLocation -/

/-- `strIncludes` decides exactly contiguous-substring containment. -/
theorem strIncludes_iff (s sub : String) :
    strIncludes s sub = true ↔
      ∃ a b : List Char, s.toList = a ++ (sub.toList ++ b) := by
  unfold strIncludes
  rw [List.any_eq_true]
  constructor
  · rintro ⟨t, ht, hp⟩
    rw [List.mem_tails] at ht
    obtain ⟨p, hpt⟩ := ht
    obtain ⟨r, hr⟩ := List.isPrefixOf_iff_prefix.mp hp
    exact ⟨p, r, by rw [← hpt, ← hr]⟩
  · rintro ⟨a, b, hab⟩
    refine ⟨sub.toList ++ b, ?_, ?_⟩
    · rw [List.mem_tails]
      exact ⟨a, hab.symm⟩
    · exact List.isPrefixOf_iff_prefix.mpr ⟨b, rfl⟩

/-- C9: on a table whose records all carry `host_location`,
`filterByHostLocation` keeps exactly the records containing the given
location as a case-sensitive contiguous substring; on a table where some
record lacks `host_location`, the call throws (models the
null-dereference on `undefined.includes`) instead of returning a result. -/
theorem host_location_filter (loc : String) (d : List Record) :
    ((∀ r ∈ d, r.host_location.isSome) →
       filterByHostLocation loc d =
         some (d.filter (fun r => strIncludes (r.host_location.getD "") loc))) ∧
    (∀ s : String, strIncludes s loc = true ↔
       ∃ a b : List Char, s.toList = a ++ (loc.toList ++ b)) ∧
    ((∃ r ∈ d, r.host_location = none) → filterByHostLocation loc d = none) := by
  refine ⟨fun hall => ?_, fun s => strIncludes_iff s loc, fun hmiss => ?_⟩
  · have h : List.all d (fun r => r.host_location.isSome) = true := by
      rw [List.all_eq_true]; exact hall
    unfold filterByHostLocation
    rw [if_pos h]
  · obtain ⟨r, hr, hnone⟩ := hmiss
    have h : ¬ List.all d (fun r => r.host_location.isSome) = true := by
      rw [List.all_eq_true]
      intro hall
      have := hall r hr
      rw [hnone] at this
      exact Bool.noConfusion this
    unfold filterByHostLocation
    rw [if_neg h]

/-- Witness for C9 at concrete inputs: `"Paris, France"` matches,
lowercase `"paris"` does not, and a record without `host_location` makes
the call fail. -/
theorem host_location_filter_witness :
    ((∀ r ∈ [({ host_location := some "Paris, France" } : Record),
        { host_location := some "paris" }], r.host_location.isSome) ∧
      filterByHostLocation "Paris"
          [({ host_location := some "Paris, France" } : Record),
            { host_location := some "paris" }] =
        some [{ host_location := some "Paris, France" }]) ∧
    ((∃ r ∈ [({} : Record)], r.host_location = none) ∧
      filterByHostLocation "Paris" [({} : Record)] = none) := by
  constructor
  · constructor
    · decide
    · rw [(host_location_filter "Paris" _).1 (by decide)]
      decide
  · exact ⟨by decide, (host_location_filter "Paris" [({} : Record)]).2.2 (by decide)⟩

/-! ## Claim theorems: computeListingsPerHost -/

/-- C2 as stated is false: with host_ids `"2"` then `"1"` (numeric
strings, equal counts), `Object.entries` enumerates the integer-like keys
in ascending numeric order, so the ranking is `[["1",1],["2",1]]`, not
the first-appearance order `[["2",1],["1",1]]`. -/
theorem host_ranking_numeric_keys_counterexample :
    computeListingsPerHost
        [({ host_id := some "2" } : Record), { host_id := some "1" }] =
        [("1", 1), ("2", 1)] ∧
      ([("1", 1), ("2", 1)] : List (String × Nat)) ≠ [("2", 1), ("1", 1)] := by
  refine ⟨by decide, by decide⟩

/-- Inserting into a sorted-by-count list preserves the per-count
filtrations: the new element goes in front of the equal-count block. -/
theorem filter_orderedInsert_count (c : Nat) (x : String × Nat)
    (l : List (String × Nat)) :
    (List.orderedInsert countGe x l).filter (fun p => p.2 == c) =
      if x.2 = c then x :: l.filter (fun p => p.2 == c)
      else l.filter (fun p => p.2 == c) := by
  induction l with
  | nil =>
      by_cases hxc : x.2 = c <;>
        simp [List.orderedInsert, List.filter_cons, beq_iff_eq, hxc]
  | cons y t ih =>
      simp only [List.orderedInsert]
      by_cases hxy : countGe x y
      · rw [if_pos hxy]
        by_cases hxc : x.2 = c <;> simp [List.filter_cons, beq_iff_eq, hxc]
      · rw [if_neg hxy]
        by_cases hyc : y.2 = c
        · have hxc : ¬ x.2 = c := by
            intro hxc
            exact hxy (by unfold countGe; omega)
          simp [List.filter_cons, beq_iff_eq, hyc, hxc, ih]
        · simp [List.filter_cons, beq_iff_eq, hyc, ih]

/-- The stable descending sort leaves each equal-count block in input
order. -/
theorem insertionSort_count_stable (l : List (String × Nat)) (c : Nat) :
    (List.insertionSort countGe l).filter (fun p => p.2 == c) =
      l.filter (fun p => p.2 == c) := by
  induction l with
  | nil => rfl
  | cons x t ih =>
      simp only [List.insertionSort]
      rw [filter_orderedInsert_count]
      by_cases hxc : x.2 = c
      · rw [if_pos hxc, ih]
        simp [List.filter_cons, beq_iff_eq, hxc]
      · rw [if_neg hxc, ih]
        simp [List.filter_cons, beq_iff_eq, hxc]

/-- C2 amended: the ranking is sorted descending by count, and ties keep
the order of the underlying `Object.entries` enumeration — integer-like
host_ids ascending numerically first, then the others in first-appearance
order — rather than plain first-appearance order. -/
theorem host_ranking_sorted_stable (d : List Record) :
    List.Sorted countGe (computeListingsPerHost d) ∧
    ∀ c : Nat, (computeListingsPerHost d).filter (fun p => p.2 == c) =
      (jsEntriesOrder (hostFold d)).filter (fun p => p.2 == c) :=
  ⟨List.sorted_insertionSort countGe _, fun c => insertionSort_count_stable _ c⟩

/-! ## Association-list lookup lemmas -/

theorem lookupA_mem {α : Type} {k : String} {v : α} {l : List (String × α)}
    (h : lookupA k l = some v) : (k, v) ∈ l := by
  induction l with
  | nil => cases h
  | cons kb t ih =>
      obtain ⟨k', v'⟩ := kb
      unfold lookupA at h
      split at h
      · rename_i hk
        subst hk
        injection h with h
        subst h
        exact List.mem_cons_self _ _
      · exact List.mem_cons_of_mem _ (ih h)

theorem lookupA_of_mem {α : Type} {k : String} {v : α} {l : List (String × α)}
    (nd : (l.map Prod.fst).Nodup) (h : (k, v) ∈ l) : lookupA k l = some v := by
  induction l with
  | nil => cases h
  | cons kb t ih =>
      obtain ⟨k', v'⟩ := kb
      rcases List.mem_cons.mp h with heq | hmem
      · rw [Prod.mk.injEq] at heq
        obtain ⟨h1, h2⟩ := heq
        subst h1; subst h2
        simp [lookupA]
      · rw [List.map_cons, List.nodup_cons] at nd
        have hk : k' ≠ k := by
          intro hkk
          subst hkk
          exact nd.1 (List.mem_map.mpr ⟨(k', v), hmem, rfl⟩)
        simp only [lookupA, if_neg hk]
        exact ih nd.2 hmem

theorem lookupA_none {α : Type} {k : String} {l : List (String × α)}
    (h : ∀ v : α, (k, v) ∉ l) : lookupA k l = none := by
  induction l with
  | nil => rfl
  | cons kb t ih =>
      obtain ⟨k', v'⟩ := kb
      by_cases hk : k' = k
      · subst hk
        exact absurd (List.mem_cons_self _ _) (h v')
      · simp only [lookupA, if_neg hk]
        exact ih (fun v hv => h v (List.mem_cons_of_mem _ hv))

/-- With duplicate-free keys, lookup is invariant under permutation. -/
theorem lookupA_eq_of_perm {α : Type} (k : String) {l1 l2 : List (String × α)}
    (hp : List.Perm l1 l2) (nd : (l2.map Prod.fst).Nodup) :
    lookupA k l1 = lookupA k l2 := by
  cases hl : lookupA k l2 with
  | some v =>
      have nd1 : (l1.map Prod.fst).Nodup := ((hp.map Prod.fst).nodup_iff).mpr nd
      exact lookupA_of_mem nd1 (hp.mem_iff.mpr (lookupA_mem hl))
  | none =>
      apply lookupA_none
      intro v hv
      have hv2 : (k, v) ∈ l2 := hp.mem_iff.mp hv
      rw [lookupA_of_mem nd hv2] at hl
      cases hl

theorem lookupA_mapVal {α β : Type} (g : α → β) (k : String) (l : List (String × α)) :
    lookupA k (l.map (fun kb => (kb.1, g kb.2))) = (lookupA k l).map g := by
  induction l with
  | nil => rfl
  | cons kb t ih =>
      obtain ⟨k', v⟩ := kb
      by_cases h : k' = k <;> simp [lookupA, h, ih]

/-- The enumeration reordering is a permutation of the insertion order. -/
theorem jsEntriesOrder_perm {α : Type} (l : List (String × α)) :
    List.Perm (jsEntriesOrder l) l := by
  unfold jsEntriesOrder
  have h1 : List.Perm
      (List.insertionSort (fun a b => idxVal a ≤ idxVal b)
        (l.filter (fun p => isArrayIndex p.1)))
      (l.filter (fun p => isArrayIndex p.1)) := List.perm_insertionSort _ _
  exact (h1.append_right _).trans (List.filter_append_perm _ l)

/-! ## Bucket accumulator lemmas -/

theorem jsAdd_nan_right (x : JsNum) : jsAdd x JsNum.nan = JsNum.nan := by
  cases x <;> rfl

theorem jsAdd_nan_left (x : JsNum) : jsAdd JsNum.nan x = JsNum.nan := by
  cases x <;> rfl

/-- The key sequence after an update: unchanged when the key existed,
extended at the back otherwise. -/
theorem keys_updateBucket (bl : List (String × Bucket)) (k : String) (p : JsNum) :
    (updateBucket bl k p).map Prod.fst =
      if k ∈ bl.map Prod.fst then bl.map Prod.fst else bl.map Prod.fst ++ [k] := by
  induction bl with
  | nil => simp [updateBucket]
  | cons kb t ih =>
      obtain ⟨k', b⟩ := kb
      by_cases h : k' = k
      · subst h
        simp [updateBucket]
      · have hstep : (updateBucket ((k', b) :: t) k p).map Prod.fst =
            k' :: (updateBucket t k p).map Prod.fst := by
          simp [updateBucket, h]
        rw [hstep, ih]
        by_cases hm : k ∈ t.map Prod.fst
        · rw [if_pos hm, if_pos (show k ∈ ((k', b) :: t).map Prod.fst by simp [hm]),
            List.map_cons]
        · have hnot : k ∉ ((k', b) :: t).map Prod.fst := by
            simp only [List.map_cons, List.mem_cons]
            push_neg
            exact ⟨fun hkk => h hkk.symm, hm⟩
          rw [if_neg hm, if_neg hnot, List.map_cons, List.cons_append]

/-- The stats accumulator keeps its keys duplicate-free. -/
theorem statsFold_keys_nodup_aux (l : List Record) (acc : List (String × Bucket))
    (h : (acc.map Prod.fst).Nodup) : ((l.foldl statsStep acc).map Prod.fst).Nodup := by
  induction l generalizing acc with
  | nil => exact h
  | cons r t ih =>
      rw [List.foldl_cons]
      apply ih
      unfold statsStep
      by_cases hb : blankPrice r = true
      · simp [hb, h]
      · have hb' : blankPrice r = false := by simpa using hb
        rw [hb']
        simp only [Bool.false_eq_true, if_false]
        rw [keys_updateBucket]
        split
        · exact h
        · rename_i hnot
          simp [List.nodup_append, h, hnot]

theorem statsFold_keys_nodup (l : List Record) :
    ((statsFold l).map Prod.fst).Nodup :=
  statsFold_keys_nodup_aux l [] (by simp)

/-- Updating a key leaves a NaN sum in its bucket when the added price is
NaN. -/
theorem updateBucket_nan_lookup (bl : List (String × Bucket)) (k : String) :
    ∃ b : Bucket, lookupA k (updateBucket bl k JsNum.nan) = some b ∧
      b.sum = JsNum.nan := by
  induction bl with
  | nil =>
      refine ⟨⟨jsAdd (JsNum.num 0) JsNum.nan, 1⟩, ?_, rfl⟩
      simp [updateBucket, lookupA]
  | cons kb t ih =>
      obtain ⟨k', b⟩ := kb
      by_cases h : k' = k
      · subst h
        exact ⟨⟨jsAdd b.sum JsNum.nan, b.count + 1⟩,
          by simp [updateBucket, lookupA], jsAdd_nan_right b.sum⟩
      · obtain ⟨b0, hl, hs⟩ := ih
        exact ⟨b0, by simp [updateBucket, h, lookupA, hl], hs⟩

/-- A NaN sum at a key survives any further update. -/
theorem updateBucket_pres_nan (bl : List (String × Bucket)) (k k2 : String) (p : JsNum)
    (h : ∃ b : Bucket, lookupA k bl = some b ∧ b.sum = JsNum.nan) :
    ∃ b : Bucket, lookupA k (updateBucket bl k2 p) = some b ∧ b.sum = JsNum.nan := by
  induction bl with
  | nil =>
      obtain ⟨b, hb, _⟩ := h
      cases hb
  | cons kb t ih =>
      obtain ⟨k', b⟩ := kb
      obtain ⟨b0, hb0, hs0⟩ := h
      by_cases hk2 : k' = k2
      · subst hk2
        by_cases hk : k' = k
        · subst hk
          have hbb : b = b0 := by simpa [lookupA] using hb0
          subst hbb
          refine ⟨⟨jsAdd b.sum p, b.count + 1⟩, by simp [updateBucket, lookupA], ?_⟩
          rw [hs0, jsAdd_nan_left]
        · have ht : lookupA k t = some b0 := by simpa [lookupA, hk] using hb0
          exact ⟨b0, by simp [updateBucket, lookupA, hk, ht], hs0⟩
      · by_cases hk : k' = k
        · subst hk
          have hbb : b = b0 := by simpa [lookupA] using hb0
          subst hbb
          exact ⟨b, by simp [updateBucket, hk2, lookupA], hs0⟩
        · have ht : lookupA k t = some b0 := by simpa [lookupA, hk] using hb0
          obtain ⟨b1, hl1, hs1⟩ := ih ⟨b0, ht, hs0⟩
          exact ⟨b1, by simp [updateBucket, hk2, lookupA, hk, hl1], hs1⟩

/-- A NaN sum at a key survives the rest of the fold. -/
theorem foldl_pres_nan (l : List Record) (acc : List (String × Bucket)) (k : String)
    (h : ∃ b : Bucket, lookupA k acc = some b ∧ b.sum = JsNum.nan) :
    ∃ b : Bucket, lookupA k (l.foldl statsStep acc) = some b ∧ b.sum = JsNum.nan := by
  induction l generalizing acc with
  | nil => exact h
  | cons r t ih =>
      rw [List.foldl_cons]
      apply ih
      unfold statsStep
      split
      · exact h
      · exact updateBucket_pres_nan acc k _ _ h

/-- A non-blank record whose extracted price is NaN leaves a NaN sum in
its bucket after the fold. -/
theorem foldl_nan_of_mem (l : List Record) (acc : List (String × Bucket)) (r : Record)
    (hr : r ∈ l) (hb : blankPrice r = false)
    (hnan : extractPrice (r.price.getD "") = JsNum.nan) :
    ∃ b : Bucket, lookupA (bedKey r) (l.foldl statsStep acc) = some b ∧
      b.sum = JsNum.nan := by
  induction l generalizing acc with
  | nil => cases hr
  | cons x t ih =>
      rw [List.foldl_cons]
      rcases List.mem_cons.mp hr with heq | hmem
      · subst heq
        apply foldl_pres_nan
        have hstep : statsStep acc r =
            updateBucket acc (bedKey r) (extractPrice (r.price.getD "")) := by
          simp [statsStep, hb]
        rw [hstep, hnan]
        exact updateBucket_nan_lookup acc (bedKey r)
      · exact ih _ hmem

/-- Bucket count stored at a key (`0` when the key is absent). -/
def cntOf (k : String) (bl : List (String × Bucket)) : Nat :=
  match lookupA k bl with
  | some b => b.count
  | none => 0

theorem cntOf_cons_same (k : String) (b : Bucket) (l : List (String × Bucket)) :
    cntOf k ((k, b) :: l) = b.count := by
  unfold cntOf
  simp [lookupA]

theorem cntOf_cons_ne (k k' : String) (b : Bucket) (l : List (String × Bucket))
    (h : k' ≠ k) : cntOf k ((k', b) :: l) = cntOf k l := by
  unfold cntOf
  rw [show lookupA k ((k', b) :: l) = lookupA k l from by simp [lookupA, h]]

theorem cntOf_updateBucket_same (bl : List (String × Bucket)) (k : String) (p : JsNum) :
    cntOf k (updateBucket bl k p) = cntOf k bl + 1 := by
  induction bl with
  | nil =>
      rw [show updateBucket [] k p = [(k, ⟨jsAdd (JsNum.num 0) p, 1⟩)] from rfl,
        cntOf_cons_same]
      rfl
  | cons kb t ih =>
      obtain ⟨k', b⟩ := kb
      by_cases h : k' = k
      · subst h
        rw [show updateBucket ((k', b) :: t) k' p =
            (k', ⟨jsAdd b.sum p, b.count + 1⟩) :: t from by simp [updateBucket],
          cntOf_cons_same, cntOf_cons_same]
      · rw [show updateBucket ((k', b) :: t) k p = (k', b) :: updateBucket t k p from by
            simp [updateBucket, h],
          cntOf_cons_ne _ _ _ _ h, cntOf_cons_ne _ _ _ _ h, ih]

theorem cntOf_updateBucket_ne (bl : List (String × Bucket)) (k k2 : String) (p : JsNum)
    (h : k2 ≠ k) : cntOf k (updateBucket bl k2 p) = cntOf k bl := by
  induction bl with
  | nil =>
      rw [show updateBucket [] k2 p = [(k2, ⟨jsAdd (JsNum.num 0) p, 1⟩)] from rfl,
        cntOf_cons_ne _ _ _ _ h]
  | cons kb t ih =>
      obtain ⟨k', b⟩ := kb
      by_cases hk2 : k' = k2
      · subst hk2
        rw [show updateBucket ((k', b) :: t) k' p =
            (k', ⟨jsAdd b.sum p, b.count + 1⟩) :: t from by simp [updateBucket]]
        have hk : k' ≠ k := fun hkk => h (hkk ▸ rfl)
        rw [cntOf_cons_ne _ _ _ _ hk, cntOf_cons_ne _ _ _ _ hk]
      · rw [show updateBucket ((k', b) :: t) k2 p = (k', b) :: updateBucket t k2 p from by
            simp [updateBucket, hk2]]
        by_cases hk : k' = k
        · subst hk
          rw [cntOf_cons_same, cntOf_cons_same]
        · rw [cntOf_cons_ne _ _ _ _ hk, cntOf_cons_ne _ _ _ _ hk, ih]

/-- The fold adds one to a key's count for each non-blank record grouped
under it. -/
theorem cntOf_foldl (l : List Record) (acc : List (String × Bucket)) (k : String) :
    cntOf k (l.foldl statsStep acc) =
      cntOf k acc + (l.filter (fun x => !blankPrice x && bedKey x == k)).length := by
  induction l generalizing acc with
  | nil => simp
  | cons r t ih =>
      rw [List.foldl_cons]
      by_cases hb : blankPrice r = true
      · have hstep : statsStep acc r = acc := by simp [statsStep, hb]
        rw [hstep, ih]
        simp [List.filter_cons, hb]
      · have hb' : blankPrice r = false := by simpa using hb
        have hstep : statsStep acc r =
            updateBucket acc (bedKey r) (extractPrice (r.price.getD "")) := by
          simp [statsStep, hb']
        rw [hstep, ih]
        by_cases hk : bedKey r = k
        · rw [hk, cntOf_updateBucket_same]
          have hcond : (!blankPrice r && (bedKey r == k)) = true := by
            simp [hb', hk]
          simp only [List.filter_cons, hcond, if_true, List.length_cons]
          omega
        · rw [cntOf_updateBucket_ne _ _ _ _ hk]
          have hcond : (!blankPrice r && (bedKey r == k)) = false := by
            simp [hb', hk]
          simp [List.filter_cons, hcond]

/-! ## Unparsable (digitless) prices -/

theorem takeWhile_digits_of_dots (l : List Char) (h : ∀ c ∈ l, c = '.') :
    l.takeWhile Char.isDigit = [] := by
  cases l with
  | nil => rfl
  | cons c t =>
      have hc : c = '.' := h c (by simp)
      subst hc
      rfl

/-- A list of dots has no valid decimal-literal prefix. -/
theorem parseFloatAux_dots (l : List Char) (h : ∀ c ∈ l, c = '.') :
    parseFloatAux l = none := by
  cases l with
  | nil => rfl
  | cons c t =>
      have hc : c = '.' := h c (by simp)
      subst hc
      have ht : ∀ x ∈ t, x = '.' := fun x hx => h x (by simp [hx])
      simp [parseFloatAux, takeWhile_digits_of_dots t ht]

/-- A string of dots parses to NaN. -/
theorem jsParseFloat_dots (l : List Char) (h : ∀ c ∈ l, c = '.') :
    jsParseFloat (String.mk l) = JsNum.nan := by
  unfold jsParseFloat
  have hlist : (String.mk l).toList = l := rfl
  rw [hlist]
  cases l with
  | nil => rfl
  | cons c t =>
      have hc : c = '.' := h c (by simp)
      subst hc
      have hdrop : ('.' :: t).dropWhile jsWhitespace = '.' :: t := rfl
      rw [hdrop]
      simp [parseFloatAux_dots ('.' :: t) h]

/-- A price string with no digit strips to dots only and therefore
extracts to NaN. -/
theorem extractPrice_no_digit (s : String) (h : ∀ c ∈ s.toList, c.isDigit = false) :
    extractPrice s = JsNum.nan := by
  unfold extractPrice
  apply jsParseFloat_dots
  intro c hc
  rw [List.mem_filter] at hc
  obtain ⟨hmem, hpred⟩ := hc
  have hd := h c hmem
  simp only [hd, Bool.false_or, decide_eq_true_eq] at hpred
  exact hpred

/-- C10: a record whose price string is non-blank but contains no digit
is NOT excluded by `computeStats`: it is accumulated into its bedroom
bucket (the bucket count equals the number of non-blank records grouped
under that key, hence includes it), and the bucket's reported average is
NaN — not a finite number. -/
theorem stats_digitless_price_pollutes_bucket (d : List Record) (r : Record) (s : String)
    (hr : r ∈ d) (hp : r.price = some s) (hblank : jsTrim s ≠ "")
    (hnodigit : ∀ c ∈ s.toList, c.isDigit = false) :
    (∃ b : Bucket, lookupA (bedKey r) (statsFold d) = some b ∧
       b.count = (d.filter (fun x => !blankPrice x && bedKey x == bedKey r)).length ∧
       1 ≤ b.count) ∧
    lookupA (bedKey r) (computeStats d).avgPricePerBedroom = some JsNum.nan := by
  have hs : s ≠ "" := by
    intro hs0
    subst hs0
    exact hblank rfl
  have hb : blankPrice r = false := by
    simp [blankPrice, hp, hs, hblank]
  have hnan : extractPrice (r.price.getD "") = JsNum.nan := by
    rw [hp, Option.getD_some]
    exact extractPrice_no_digit s hnodigit
  obtain ⟨b, hlook0, hsum⟩ := foldl_nan_of_mem d [] r hr hb hnan
  have hlook : lookupA (bedKey r) (statsFold d) = some b := hlook0
  have hcnt : b.count = (d.filter (fun x => !blankPrice x && bedKey x == bedKey r)).length := by
    have h0 := cntOf_foldl d [] (bedKey r)
    have hc0 : cntOf (bedKey r) ([] : List (String × Bucket)) = 0 := rfl
    rw [hc0, Nat.zero_add] at h0
    have hcb : cntOf (bedKey r) (statsFold d) = b.count := by
      unfold cntOf
      rw [hlook]
    rw [← hcb]
    exact h0
  have hpos : 1 ≤ b.count := by
    rw [hcnt]
    have hmem : r ∈ d.filter (fun x => !blankPrice x && bedKey x == bedKey r) := by
      rw [List.mem_filter]
      exact ⟨hr, by simp [hb]⟩
    calc 1 ≤ 1 := le_refl 1
    _ ≤ (d.filter (fun x => !blankPrice x && bedKey x == bedKey r)).length :=
        List.length_pos.mpr (fun hnil => by rw [hnil] at hmem; cases hmem)
  refine ⟨⟨b, hlook, hcnt, hpos⟩, ?_⟩
  have havg : (computeStats d).avgPricePerBedroom =
      (jsEntriesOrder (statsFold d)).map (fun kb => (kb.1, bucketAvg kb.2)) := rfl
  rw [havg, lookupA_mapVal, lookupA_eq_of_perm (bedKey r) (jsEntriesOrder_perm _)
    (statsFold_keys_nodup d), hlook]
  have hbavg : bucketAvg b = JsNum.nan := by
    unfold bucketAvg
    rw [if_pos (by omega : b.count > 0), hsum]
    rfl
  rw [show Option.map bucketAvg (some b) = some (bucketAvg b) from rfl, hbavg]

/-- Witness for C10 at a concrete input: the `"N/A"`-priced one-bedroom
record gives bucket `"1"` a count of 1 and a NaN average. -/
theorem stats_digitless_price_pollutes_bucket_witness :
    (pNA ∈ [pNA] ∧ pNA.price = some "N/A" ∧ jsTrim "N/A" ≠ "" ∧
        (∀ c ∈ ("N/A" : String).toList, c.isDigit = false)) ∧
      ((∃ b : Bucket, lookupA (bedKey pNA) (statsFold [pNA]) = some b ∧
          b.count = ([pNA].filter (fun x => !blankPrice x && bedKey x == bedKey pNA)).length ∧
          1 ≤ b.count) ∧
        lookupA (bedKey pNA) (computeStats [pNA]).avgPricePerBedroom = some JsNum.nan) :=
  ⟨⟨by decide, by decide, by decide, by decide⟩,
    stats_digitless_price_pollutes_bucket [pNA] pNA "N/A" (by decide) (by decide)
      (by decide) (by decide)⟩

/-! ## Claim theorems: the export round trip -/

/-- Reading back a serialized list is the identity when it is so
elementwise. -/
theorem readL_serializeL (l : List JVal) (h : ∀ v ∈ l, readV (serializeV v) = v) :
    readL (serializeL l) = l := by
  induction l with
  | nil => rfl
  | cons v vs ih =>
      rw [show serializeL (v :: vs) = serializeV v :: serializeL vs from rfl,
        show readL (serializeV v :: serializeL vs) =
          readV (serializeV v) :: readL (serializeL vs) from rfl,
        h v (List.mem_cons_self v vs), ih (fun x hx => h x (List.mem_cons_of_mem v hx))]

/-- Reading back a serialized object is the identity when it is so on
each value. -/
theorem readO_serializeO (l : List (String × JVal))
    (h : ∀ p ∈ l, readV (serializeV p.2) = p.2) :
    readO (serializeO l) = l := by
  induction l with
  | nil => rfl
  | cons p ps ih =>
      obtain ⟨k, v⟩ := p
      rw [show serializeO ((k, v) :: ps) = (k, serializeV v) :: serializeO ps from rfl,
        show readO ((k, serializeV v) :: serializeO ps) =
          (k, readV (serializeV v)) :: readO (serializeO ps) from rfl,
        h (k, v) (List.mem_cons_self _ _), ih (fun x hx => h x (List.mem_cons_of_mem _ hx))]

/-- Every entry a record contributes is a string value. -/
theorem optField_str (k : String) (o : Option String) :
    ∀ p ∈ optField k o, ∃ s, p.2 = JVal.str s := by
  intro p hp
  cases o with
  | none => cases hp
  | some s =>
      rcases List.mem_singleton.mp hp with h
      exact ⟨s, by rw [h]⟩

/-- A serialized record survives the round trip (all its values are
strings). -/
theorem roundTrip_record (r : Record) :
    readV (serializeV (recordToJVal r)) = recordToJVal r := by
  unfold recordToJVal
  rw [show serializeV (JVal.obj (optField "price" r.price ++ optField "room_type" r.room_type ++
      optField "bedrooms" r.bedrooms ++ optField "review_scores_rating" r.review_scores_rating ++
      optField "host_id" r.host_id ++ optField "host_location" r.host_location)) =
    Json.obj (serializeO (optField "price" r.price ++ optField "room_type" r.room_type ++
      optField "bedrooms" r.bedrooms ++ optField "review_scores_rating" r.review_scores_rating ++
      optField "host_id" r.host_id ++ optField "host_location" r.host_location)) from rfl]
  rw [show ∀ m : List (String × Json), readV (Json.obj m) = JVal.obj (readO m) from fun _ => rfl]
  congr 1
  apply readO_serializeO
  intro p hp
  have hstr : ∃ s, p.2 = JVal.str s := by
    simp only [List.mem_append] at hp
    rcases hp with ((((h1 | h2) | h3) | h4) | h5) | h6
    · exact optField_str _ _ p h1
    · exact optField_str _ _ p h2
    · exact optField_str _ _ p h3
    · exact optField_str _ _ p h4
    · exact optField_str _ _ p h5
    · exact optField_str _ _ p h6
  obtain ⟨s, hs⟩ := hstr
  rw [hs]
  rfl

/-- A serialized host ranking survives the round trip. -/
theorem roundTrip_rankings (l : List (String × Nat)) :
    readV (serializeV (rankingsToJVal l)) = rankingsToJVal l := by
  unfold rankingsToJVal
  rw [show ∀ m : List JVal, serializeV (JVal.arr m) = Json.arr (serializeL m) from fun _ => rfl]
  rw [show ∀ m : List Json, readV (Json.arr m) = JVal.arr (readL m) from fun _ => rfl]
  congr 1
  apply readL_serializeL
  intro v hv
  rw [List.mem_map] at hv
  obtain ⟨p, _, hp⟩ := hv
  rw [← hp]
  rfl

/-- Is every numeric value in the accumulated calculations finite?  (The
only place NaN can arise is a stats bucket average.) -/
def calcsFinite (c : Calculations) : Bool :=
  match c.stats with
  | none => true
  | some st => st.avgPricePerBedroom.all (fun p => p.2 != JsNum.nan)

/-- A serialized stats result with finite averages survives the round
trip. -/
theorem roundTrip_stats (st : Stats)
    (h : st.avgPricePerBedroom.all (fun p => p.2 != JsNum.nan) = true) :
    readV (serializeV (statsToJVal st)) = statsToJVal st := by
  unfold statsToJVal
  rw [show serializeV (JVal.obj [("count", JVal.num (JsNum.num (st.count : ℚ))),
      ("avgPricePerBedroom",
        JVal.obj (st.avgPricePerBedroom.map (fun p => (p.1, JVal.num p.2))))]) =
    Json.obj [("count", Json.num (st.count : ℚ)),
      ("avgPricePerBedroom",
        serializeV (JVal.obj (st.avgPricePerBedroom.map (fun p => (p.1, JVal.num p.2)))))]
    from rfl]
  rw [show ∀ j : Json, readV (Json.obj [("count", Json.num (st.count : ℚ)),
      ("avgPricePerBedroom", j)]) =
    JVal.obj [("count", JVal.num (JsNum.num (st.count : ℚ))),
      ("avgPricePerBedroom", readV j)] from fun _ => rfl]
  have havg : readV (serializeV (JVal.obj
      (st.avgPricePerBedroom.map (fun p => (p.1, JVal.num p.2))))) =
      JVal.obj (st.avgPricePerBedroom.map (fun p => (p.1, JVal.num p.2))) := by
    rw [show ∀ m : List (String × JVal), serializeV (JVal.obj m) = Json.obj (serializeO m)
      from fun _ => rfl]
    rw [show ∀ m : List (String × Json), readV (Json.obj m) = JVal.obj (readO m)
      from fun _ => rfl]
    congr 1
    apply readO_serializeO
    intro p hp
    rw [List.mem_map] at hp
    obtain ⟨q0, hq0, hpq⟩ := hp
    rw [List.all_eq_true] at h
    have hfin := h q0 hq0
    cases hqq : q0.2 with
    | nan => rw [hqq] at hfin; cases hfin
    | num q =>
        rw [← hpq, hqq]
        rfl
  rw [havg]

/-- C3 as stated is false: a stats result accumulated from a table with
an unparsable (digitless) price contains a NaN bucket average;
`JSON.stringify` writes NaN as `null`, so parsing the export back does
not reproduce the calculations object. -/
theorem export_round_trip_counterexample :
    jsonRoundTrip (exportContent [] { stats := some (computeStats [pNA]) }) ≠
      exportContent [] { stats := some (computeStats [pNA]) } := by
  intro h
  have h2 := congrArg hasNanV h
  rw [show hasNanV (jsonRoundTrip
        (exportContent [] { stats := some (computeStats [pNA]) })) = false from by decide,
    show hasNanV (exportContent [] { stats := some (computeStats [pNA]) }) = true
      from by decide] at h2
  cases h2

/-- C3 amended: the export round trip reproduces the filtered record
sequence exactly, and reproduces the calculations object exactly
provided every numeric value in it is finite; a NaN stats average is the
one value altered (it is serialized as `null`). -/
theorem export_round_trip_finite (data : List Record) (c : Calculations)
    (h : calcsFinite c = true) :
    jsonRoundTrip (exportContent data c) = exportContent data c := by
  unfold jsonRoundTrip exportContent
  rw [show serializeV (JVal.obj [("filteredListings", JVal.arr (data.map recordToJVal)),
      ("calculations", calcsToJVal c)]) =
    Json.obj [("filteredListings", serializeV (JVal.arr (data.map recordToJVal))),
      ("calculations", serializeV (calcsToJVal c))] from rfl]
  rw [show ∀ j1 j2 : Json, readV (Json.obj [("filteredListings", j1), ("calculations", j2)]) =
    JVal.obj [("filteredListings", readV j1), ("calculations", readV j2)]
    from fun _ _ => rfl]
  have hlist : readV (serializeV (JVal.arr (data.map recordToJVal))) =
      JVal.arr (data.map recordToJVal) := by
    rw [show ∀ m : List JVal, serializeV (JVal.arr m) = Json.arr (serializeL m)
      from fun _ => rfl]
    rw [show ∀ m : List Json, readV (Json.arr m) = JVal.arr (readL m) from fun _ => rfl]
    congr 1
    apply readL_serializeL
    intro v hv
    rw [List.mem_map] at hv
    obtain ⟨r, _, hr⟩ := hv
    rw [← hr]
    exact roundTrip_record r
  have hcalcs : readV (serializeV (calcsToJVal c)) = calcsToJVal c := by
    unfold calcsToJVal
    rw [show ∀ m : List (String × JVal), serializeV (JVal.obj m) = Json.obj (serializeO m)
      from fun _ => rfl]
    rw [show ∀ m : List (String × Json), readV (Json.obj m) = JVal.obj (readO m)
      from fun _ => rfl]
    congr 1
    apply readO_serializeO
    intro p hp
    simp only [List.mem_append] at hp
    rcases hp with (h1 | h2) | h3
    · rcases hst : c.stats with _ | st
      · rw [hst] at h1; cases h1
      · rw [hst] at h1
        rcases List.mem_singleton.mp h1 with hps
        rw [hps]
        apply roundTrip_stats
        unfold calcsFinite at h
        rw [hst] at h
        exact h
    · rcases hrk : c.rankings with _ | rk
      · rw [hrk] at h2; cases h2
      · rw [hrk] at h2
        rcases List.mem_singleton.mp h2 with hps
        rw [hps]
        exact roundTrip_rankings rk
    · rcases hlc : c.locationCount with _ | lc
      · rw [hlc] at h3; cases h3
      · rw [hlc] at h3
        rcases List.mem_singleton.mp h3 with hps
        rw [hps]
        rfl
  rw [hlist, hcalcs]

/-- A concrete session's accumulated calculations: finite stats, a host
ranking and a location count over the `"$140.00"` listing. -/
def sessionCalcs : Calculations :=
  { stats := some (computeStats [p140])
    rankings := some (computeListingsPerHost [p140])
    locationCount := some ("Paris", 1) }

/-- Witness for C3's amended theorem at a concrete session. -/
theorem export_round_trip_finite_witness :
    calcsFinite sessionCalcs = true ∧
      jsonRoundTrip (exportContent [p140] sessionCalcs) =
        exportContent [p140] sessionCalcs :=
  ⟨by decide, export_round_trip_finite _ _ (by decide)⟩

end AirBnB
